import Mathlib

/-!
Verification development for the multi-retailer price-scraper bot
(`Main.py` and `main.py` of tronghoan91/telegram-price-bot).

The Python sources are shallowly embedded: each Python function used by the
properties below is translated into an executable Lean definition over
`List Char` / `String`, with Python's `None` rendered as `Option`, raised
exceptions as `Except`, and the network (HTTP responses, parsed HTML) as an
explicit environment record.  Regular expressions are translated into the
matchers they denote on the character classes actually exercised (ASCII
digits for `\d`, ASCII whitespace for `\s`); comments at each definition
record the translation decisions.
-/

/-! ## Basic character classes (as used by the Python regexes) -/

/-- Python `\s` restricted to ASCII, i.e. the whitespace characters
`' '`, `'\t'`, `'\n'`, `'\r'`, `'\x0b'`, `'\x0c'`.  (The source strings
involved here contain no non-ASCII whitespace.) -/
def isWsCh (c : Char) : Bool :=
  c = ' ' || c = '\t' || c = '\n' || c = '\r' || c = '\x0b' || c = '\x0c'

/-- The character class `[.\s]` of `vn_number`'s regex: a thousands
separator is a dot or whitespace. -/
def isSepCh (c : Char) : Bool :=
  c = '.' || isWsCh c

/-- ASCII letter, i.e. the class `[A-Za-z]`. -/
def isAlphaCh (c : Char) : Bool :=
  ('A' ≤ c && c ≤ 'Z') || ('a' ≤ c && c ≤ 'z')

/-! ## Generic list/string helpers shared by the embeddings -/

/-- Join chunks with a single separator character between them
(used for `".".join(...)` and `" ".join`-like constructions). -/
def sepJoin (sep : Char) : List (List Char) → List Char
  | [] => []
  | [g] => g
  | g :: gs => g ++ sep :: sepJoin sep gs

/-- Python `str.strip()` (ASCII whitespace scope): drop whitespace from
both ends. -/
def pyStrip (l : List Char) : List Char :=
  ((l.dropWhile isWsCh).reverse.dropWhile isWsCh).reverse

/-- `leadsWith pat l` holds when `pat` occurs at the start of `l`. -/
def leadsWith : List Char → List Char → Bool
  | [], _ => true
  | _ :: _, [] => false
  | a :: as, b :: bs => a = b && leadsWith as bs

/-- One fuelled pass of Python `str.replace(pat, rep)`: replace all
non-overlapping occurrences left to right.  The fuel is an upper bound on
the number of scanning steps; `replList` below supplies `length + 1`,
which suffices because every step consumes at least one input character
(the sources never call `replace` with an empty pattern). -/
def replAux : Nat → List Char → List Char → List Char → List Char
  | 0, _, _, s => s
  | _ + 1, _, _, [] => []
  | f + 1, pat, rep, c :: rest =>
    if leadsWith pat (c :: rest) then
      rep ++ replAux f pat rep ((c :: rest).drop pat.length)
    else
      c :: replAux f pat rep rest

/-- Python `s.replace(pat, rep)` on character lists. -/
def replList (pat rep s : List Char) : List Char :=
  replAux (s.length + 1) pat rep s

/-- Python `s.replace(pat, rep)` on strings. -/
def pyReplace (s pat rep : String) : String :=
  String.mk (replList pat.toList rep.toList s.toList)

/-! ## `vn_number` (Main.py lines 108–122)

```python
def vn_number(text):
    if not text: return None
    m = re.search(r"(\d{1,3}(?:[.\s]\d{3})+|\d+)", text)
    if not m: return None
    raw = m.group(1).replace(" ", "")
    digits = re.sub(r"\D", "", raw)
    if not digits or len(digits) < 5: return None
    parts = []
    while digits:
        parts.append(digits[-3:])
        digits = digits[:-3]
    return ".".join(reversed(parts)) + " ₫"
```

The regex search is translated as follows.  Both alternatives start with a
digit, so the leftmost match starts at the first digit of the text.  At
that position the first alternative `\d{1,3}(?:[.\s]\d{3})+` is tried with
backtracking: the greedy `\d{1,3}` can only succeed with the whole initial
digit run (a shorter take leaves a digit, which is not a separator), so the
alternative matches exactly when the initial run has length ≤ 3 and is
followed by at least one `[.\s]\d\d\d` unit; the greedy `(...)+` then
consumes such units as long as they continue.  Otherwise the second
alternative `\d+` matches the whole initial digit run. -/

/-- Does a `[.\s]\d{3}` unit start here? -/
def canUnit : List Char → Bool
  | a :: b :: c :: d :: _ => isSepCh a && b.isDigit && c.isDigit && d.isDigit
  | _ => false

/-- Greedily consume `[.\s]\d{3}` units. -/
def takeUnits : List Char → List Char
  | a :: b :: c :: d :: rest =>
    if isSepCh a && b.isDigit && c.isDigit && d.isDigit then
      a :: b :: c :: d :: takeUnits rest
    else []
  | _ => []

/-- The match of `(\d{1,3}(?:[.\s]\d{3})+|\d+)` at a position that starts
with a digit. -/
def matchAt (s : List Char) : List Char :=
  let r := s.takeWhile Char.isDigit
  let rest := s.drop r.length
  if r.length ≤ 3 && canUnit rest then r ++ takeUnits rest else r

/-- `re.search` for the price pattern: scan to the first digit and match
there; `none` when the text has no digit. -/
def vnSearch : List Char → Option (List Char)
  | [] => none
  | c :: rest => if c.isDigit then some (matchAt (c :: rest)) else vnSearch rest

/-- The `while digits: parts.append(digits[-3:]); digits = digits[:-3]`
loop, expressed on the reversed digit list: peel three characters at a
time, restoring each chunk to source order.  The resulting chunk list is
in the same order as Python's `parts` (last three digits first). -/
def grpRev : List Char → List (List Char)
  | [] => []
  | [a] => [[a]]
  | [a, b] => [[b, a]]
  | a :: b :: c :: rest => [c, b, a] :: grpRev rest

/-- `".".join(reversed(parts))`: regroup a digit string into 3-digit
clusters from the right, joined by dots. -/
def regroup3 (d : List Char) : List Char :=
  sepJoin '.' (grpRev d.reverse).reverse

/-- `vn_number` on character lists.  `m.group(1).replace(" ","")` followed
by `re.sub(r"\D", "", ...)` keeps exactly the digit characters of the
match, so the two steps are translated as one `filter`. -/
def vnNumList (l : List Char) : Option (List Char) :=
  if l = [] then none
  else
    match vnSearch l with
    | none => none
    | some m =>
      let digits := m.filter Char.isDigit
      if digits.length < 5 then none
      else some (regroup3 digits ++ [' ', '₫'])

/-- `vn_number` (Main.py).  `if not text` is the empty-string test here:
the `None` argument case is handled at each call site by the `Option`
plumbing of the callers. -/
def vn_number (text : String) : Option String :=
  (vnNumList text.toList).map String.mk

/-! ## `normalize_query_variants` (Main.py lines 93–105)

```python
def normalize_query_variants(q):
    q = (q or "").strip()
    base = re.sub(r"\s+", " ", q).strip()
    tokens = base.split()
    variants = {base}
    for t in tokens:
        if re.search(r"[A-Za-z]{1,5}-?\d{2,4}", t):
            compact = t.replace("-", "")
            spaced = re.sub(r"([A-Za-z]+)-?(\d+)", r"\1 \2", t)
            variants.add(base.replace(t, compact))
            variants.add(base.replace(t, spaced))
    return list(variants)
```

IMPORTANT modelling caveat: `variants` is a Python `set`, and `list(variants)`
yields its elements in hash-table order, which with CPython's default hash
randomisation varies from process to process (e.g. for the query `"AC-381"`,
`PYTHONHASHSEED=0` yields `['AC381', 'AC-381', 'AC 381']` — the original
query is not first).  A deterministic embedding cannot reproduce that
nondeterminism; the definition below fixes first-insertion order.  Only the
*multiset of elements* (and hence duplicate-freeness) is guaranteed faithful
to the source; list positions are not. -/

/-- Whitespace tokenisation (Python `str.split()` with no argument):
split on runs of whitespace and drop empty pieces.  The accumulator holds
the current token reversed. -/
def wsTokensAux : List Char → List Char → List (List Char)
  | [], acc => if acc = [] then [] else [acc.reverse]
  | c :: rest, acc =>
    if isWsCh c then
      if acc = [] then wsTokensAux rest []
      else acc.reverse :: wsTokensAux rest []
    else wsTokensAux rest (c :: acc)

def wsTokens (l : List Char) : List (List Char) := wsTokensAux l []

/-- `re.sub(r"\s+", " ", q).strip()` collapses whitespace runs to single
spaces and trims: equivalently, the whitespace-separated tokens rejoined
with single spaces (the preceding `q.strip()` is absorbed by the same
normalisation). -/
def collapseWs (l : List Char) : List Char := sepJoin ' ' (wsTokens l)

/-- Does `re.search(r"[A-Za-z]{1,5}-?\d{2,4}", t)` match at this position?
The greedy `[A-Za-z]{1,5}` can only succeed with the whole letter run
starting here (stopping earlier leaves a letter, which is neither `-` nor
a digit), so a match here requires that run to have length 1–5 and to be
followed by an optional `-` and then at least two digits (the greedy
`\d{2,4}` needs only two to exist). -/
def codeAt (l : List Char) : Bool :=
  let ls := l.takeWhile isAlphaCh
  if ls.length = 0 || 5 < ls.length then false
  else
    let rest := l.drop ls.length
    let rest2 := match rest with
      | '-' :: r => r
      | r => r
    2 ≤ (rest2.takeWhile Char.isDigit).length

/-- `re.search(r"[A-Za-z]{1,5}-?\d{2,4}", t)` as an existence scan over
all start positions. -/
def tokHasCode : List Char → Bool
  | [] => false
  | c :: rest => codeAt (c :: rest) || tokHasCode rest

/-- One fuelled pass of `re.sub(r"([A-Za-z]+)-?(\d+)", r"\1 \2", t)`:
scan left to right; at each position the greedy `[A-Za-z]+` can only
succeed with the whole letter run (as in `codeAt`), after which an
optional `-` and a nonempty digit run complete a match, replaced by
`letters ++ " " ++ digits`; otherwise advance one character.  Fuel
`length + 1` suffices: every step consumes at least one character. -/
def spacedSubAux : Nat → List Char → List Char
  | 0, s => s
  | _ + 1, [] => []
  | f + 1, c :: rest =>
    if isAlphaCh c then
      let ls := (c :: rest).takeWhile isAlphaCh
      let after := (c :: rest).drop ls.length
      let after2 := match after with
        | '-' :: r => r
        | r => r
      let ds := after2.takeWhile Char.isDigit
      if ds = [] then c :: spacedSubAux f rest
      else ls ++ ' ' :: ds ++ spacedSubAux f (after2.drop ds.length)
    else c :: spacedSubAux f rest

def spacedSub (l : List Char) : List Char := spacedSubAux (l.length + 1) l

/-- `variants.add(v)`, with the caveat above: insertion-ordered
duplicate-free accumulation. -/
def addVar (acc : List (List Char)) (v : List Char) : List (List Char) :=
  if v ∈ acc then acc else acc ++ [v]

/-- `normalize_query_variants` (see the caveat on list order above). -/
def normalize_query_variants (q : String) : List String :=
  let base := collapseWs q.toList
  let tokens := wsTokens base
  (tokens.foldl
    (fun acc t =>
      if tokHasCode t then
        addVar (addVar acc (replList t (replList ['-'] [] t) base))
          (replList t (spacedSub t) base)
      else acc)
    [base]).map String.mk

/-! ## JSON values and `parse_jsonld_price` (Main.py lines 125–159)

JSON documents already parsed by `json.loads` are embedded as the mutual
inductive below (mutual rather than nested, so that the recursive scan is
structural and kernel-evaluable).  Script blocks whose body is empty or
fails to parse are skipped by the source (`continue`), which is the same
as their being absent from the block list.  Objects are association lists
in document order; the embedding assumes distinct keys per object (the
source's `json.loads` would keep the last duplicate).  JSON numbers are
embedded as integers — the price values exercised here are strings or
integers. -/

mutual
inductive Json where
  | null : Json
  | bool (b : Bool) : Json
  | str (s : String) : Json
  | num (n : Int) : Json
  | arr (xs : JsonList) : Json
  | obj (fs : JsonFields) : Json
inductive JsonList where
  | nil : JsonList
  | cons (hd : Json) (tl : JsonList) : JsonList
inductive JsonFields where
  | nil : JsonFields
  | cons (k : String) (v : Json) (tl : JsonFields) : JsonFields
end

/-- Python `dict.get(k)`: `None` when absent. -/
def dictGet : JsonFields → String → Option Json
  | .nil, _ => none
  | .cons k v tl, key => if k = key then some v else dictGet tl key

/-- Python truthiness of a json-loaded value (`if price:`,
`offers.get("price") or ...`). -/
def jsonTruthy : Json → Bool
  | .null => false
  | .bool b => b
  | .str s => s ≠ ""
  | .num n => n ≠ 0
  | .arr .nil => false
  | .arr (.cons _ _) => true
  | .obj .nil => false
  | .obj (.cons _ _ _) => true

mutual
/-- Python `str(...)` of a json-loaded value (`vn_number(str(price))`).
Scalars follow Python's rendering; the container cases render in Python
`repr` style but are dead code for every property proved here (a container
price would have to survive `vn_number`'s digit search to matter). -/
def pyStr : Json → String
  | .null => "None"
  | .bool true => "True"
  | .bool false => "False"
  | .str s => s
  | .num n => toString n
  | .arr xs => "[" ++ pyStrList xs ++ "]"
  | .obj fs => "\x7b" ++ pyStrFields fs ++ "\x7d"
def pyStrList : JsonList → String
  | .nil => ""
  | .cons x .nil => pyStr x
  | .cons x tl => pyStr x ++ ", " ++ pyStrList tl
def pyStrFields : JsonFields → String
  | .nil => ""
  | .cons k v .nil => k ++ ": " ++ pyStr v
  | .cons k v tl => k ++ ": " ++ pyStr v ++ ", " ++ pyStrFields tl
end

/-- The early-return step of `scan` on a dict:

```python
offers = obj.get("offers")
if isinstance(offers, dict):
    price = offers.get("price") or (
        isinstance(offers.get("priceSpecification"), dict)
        and offers["priceSpecification"].get("price"))
    if price: return vn_number(str(price))
```

`some r` means `scan` returns `r` (which may itself be `none` when
`vn_number` fails — the source then returns `None` for the whole object
without scanning its other values); `none` means fall through to the
value scan.  The `or`/`and` chain keeps the left operand when truthy,
else the right operand (`False`/`None` collapsing to a falsy value). -/
def offersEarly (fs : JsonFields) : Option (Option String) :=
  match dictGet fs "offers" with
  | some (.obj ofs) =>
    let p1 := dictGet ofs "price"
    let p2 := match dictGet ofs "priceSpecification" with
      | some (.obj pss) => dictGet pss "price"
      | _ => none
    let chosen := match p1 with
      | some v => if jsonTruthy v then some v else p2
      | none => p2
    match chosen with
    | some v => if jsonTruthy v then some (vn_number (pyStr v)) else none
    | none => none
  | _ => none

mutual
/-- The recursive `scan` of `parse_jsonld_price`: on a dict, the offers
early-return above, then the first truthy result over the values in
order; on a list, the first truthy result over the items; `None` on
scalars. -/
def scanJson : Json → Option String
  | .obj fs =>
    (match offersEarly fs with
     | some r => r
     | none => scanFields fs)
  | .arr xs => scanElems xs
  | _ => none
def scanFields : JsonFields → Option String
  | .nil => none
  | .cons _ v tl =>
    match scanJson v with
    | some f => some f
    | none => scanFields tl
def scanElems : JsonList → Option String
  | .nil => none
  | .cons v tl =>
    match scanJson v with
    | some f => some f
    | none => scanElems tl
end

/-- `parse_jsonld_price`: scan each `application/ld+json` block in
document order, returning the first truthy scan result. -/
def parse_jsonld_price : List Json → Option String
  | [] => none
  | j :: rest =>
    match scanJson j with
    | some p => some p
    | none => parse_jsonld_price rest

/-! ## Pages, environment and the scraper abstraction (Main.py 162–356)

A fetched-and-parsed page (`BeautifulSoup` value) is abstracted by the
record below, holding exactly the observations the source makes of it:

* `selOneHref css`: for `soup.select_one(css)` in `first_match` —
  `none` when no node matches, `some h` when a node matches with
  `node.get("href") = h` (`h = none` when the attribute is missing);
* `h1Text`: `soup.find("h1")` — `some t` when an `h1` exists, with `t`
  its `get_text(strip=True)` text;
* `titleString`: `some ts` when `soup.title` exists and `soup.title.string`
  is not `None` (with `ts` that string, unstripped);
* `jsonld`: the parsed `application/ld+json` script blocks in order;
* `domVals`: the candidate strings produced by `parse_dom_price`'s
  selector/node loop, in selector-then-node order — for each matched node,
  `node.get("content") or node.get("data-price") or node.get_text(...)`;
* `fullText`: `soup.get_text(" ", strip=True)`. -/

structure Soup where
  selOneHref : String → Option (Option String)
  h1Text : Option String
  titleString : Option String
  jsonld : List Json
  domVals : List String
  fullText : String

/-- The network: `http_get(url).text` followed by `BeautifulSoup(...)`.
`.error e` models `http_get` raising after exhausting its retries (with
`e` the message); `.ok soup` a body that parsed. -/
structure Env where
  fetch : String → Except String Soup

/-- `parse_dom_price` (Main.py lines 162–183): collect `vn_number` of the
candidate values, deduplicate preserving first occurrence, return the
first; when no candidate survives, fall back to `vn_number` of the page's
full visible text. -/
def dedupKeep (l : List String) : List String :=
  l.foldl (fun acc c => if c ∈ acc then acc else acc ++ [c]) []

def parse_dom_price (soup : Soup) : Option String :=
  let candidates := soup.domVals.filterMap vn_number
  match dedupKeep candidates with
  | u :: _ => some u
  | [] => vn_number soup.fullText

/-- `PriceResult` (Main.py lines 199–205). -/
structure PriceResult where
  site : String
  title : Option String
  price : Option String
  url : Option String
  note : Option String
deriving DecidableEq

/-- A site adapter: the data of one `BaseScraper` subclass. -/
structure Scraper where
  site_name : String
  base_url : String
  search_urls : String → List String
  search_selectors : List String

/-- `href if href.startswith("http") else urljoin(base, href)`.
`urljoin` itself (RFC 3986 resolution) is kept abstract: every theorem
below is universally quantified over the join function `uj`. -/
def resolveHref (uj : String → String → String) (base href : String) : String :=
  if leadsWith "http".toList href.toList then href else uj base href

/-- `first_match` (Main.py lines 186–192): the first selector whose node
exists and has a non-empty `href` not starting with `#`, resolved. -/
def first_match (uj : String → String → String) (soup : Soup)
    (selectors : List String) (base : String) : Option String :=
  match selectors with
  | [] => none
  | css :: rest =>
    match soup.selOneHref css with
    | some (some href) =>
      if href ≠ "" && !leadsWith ['#'] href.toList then
        some (resolveHref uj base href)
      else first_match uj soup rest base
    | _ => first_match uj soup rest base

/-- The body of `find_product_url`'s inner loop for one search URL: fetch
(a raised fetch error is caught, logged and yields no link) and scan. -/
def tryUrl (uj : String → String → String) (env : Env) (s : Scraper)
    (url : String) : Option String :=
  match env.fetch url with
  | .error _ => none
  | .ok soup => first_match uj soup s.search_selectors s.base_url

/-- The `for url in self.search_urls(variant)` loop. -/
def urlLoop (uj : String → String → String) (env : Env) (s : Scraper) :
    List String → Option String
  | [] => none
  | url :: rest =>
    match tryUrl uj env s url with
    | some link => some link
    | none => urlLoop uj env s rest

/-- The `for variant in normalize_query_variants(q)` loop. -/
def variantLoop (uj : String → String → String) (env : Env) (s : Scraper) :
    List String → Option String
  | [] => none
  | v :: rest =>
    match urlLoop uj env s (s.search_urls v) with
    | some link => some link
    | none => variantLoop uj env s rest

/-- `find_product_url` (Main.py lines 218–231). -/
def find_product_url (uj : String → String → String) (env : Env)
    (s : Scraper) (q : String) : Option String :=
  variantLoop uj env s (normalize_query_variants q)

/-- The title chain of `parse_product` (Main.py lines 236–241):
`title = h1.get_text(strip=True)` when an `h1` exists; when that left
`title` falsy (`None` or `""`) and the page has a `title` tag with a
truthy (non-`None`, non-empty) string, the stripped string; otherwise
whatever the h1 step left (`None`, or the empty h1 text). -/
def compute_title (soup : Soup) : Option String :=
  let t0 := soup.h1Text
  if t0 = none ∨ t0 = some "" then
    match soup.titleString with
    | some ts => if ts ≠ "" then some (String.mk (pyStrip ts.toList)) else t0
    | none => t0
  else t0

/-- `parse_product` (Main.py lines 233–246).  The fetch of the product
URL may raise (`.error`), which propagates to the caller; on success the
price is the JSON-LD stage or, when it yields nothing, the DOM stage
(`parse_jsonld_price(soup) or parse_dom_price(soup)` — the JSON-LD result
is `None` or a non-empty string, so `or` is exactly the `Option` match). -/
def parse_product (env : Env) (s : Scraper) (url : String) :
    Except String PriceResult :=
  match env.fetch url with
  | .error e => .error e
  | .ok soup =>
    let price :=
      match parse_jsonld_price soup.jsonld with
      | some p => some p
      | none => parse_dom_price soup
    let note :=
      if price = none then
        some "Không tìm thấy giá rõ ràng (trang có thể render bằng JS)."
      else none
    .ok ⟨s.site_name, compute_title soup, price, some url, note⟩

/-- `get_price` (Main.py lines 248–252). -/
def get_price (uj : String → String → String) (env : Env) (s : Scraper)
    (q : String) : Except String PriceResult :=
  match find_product_url uj env s q with
  | none =>
    .ok ⟨s.site_name, none, none, none,
      some "Không tìm thấy link sản phẩm từ trang tìm kiếm."⟩
  | some url => parse_product env s url

/-! ## The five site adapters and the registry (Main.py lines 259–346) -/

/-- UTF-8 bytes of a character, by the standard arithmetic encoding. -/
def utf8Bytes (c : Char) : List Nat :=
  let n := c.toNat
  if n < 0x80 then [n]
  else if n < 0x800 then [0xC0 + n / 64, 0x80 + n % 64]
  else if n < 0x10000 then
    [0xE0 + n / 4096, 0x80 + n / 64 % 64, 0x80 + n % 64]
  else
    [0xF0 + n / 262144, 0x80 + n / 4096 % 64, 0x80 + n / 64 % 64,
      0x80 + n % 64]

def hexDig (n : Nat) : Char :=
  if n < 10 then Char.ofNat (48 + n) else Char.ofNat (55 + n)

/-- A byte `urllib.parse.quote_plus` leaves unencoded: ASCII letters,
digits, and `_.-~`. -/
def isSafeByte (b : Nat) : Bool :=
  (65 ≤ b && b ≤ 90) || (97 ≤ b && b ≤ 122) || (48 ≤ b && b ≤ 57) ||
    b = 95 || b = 46 || b = 45 || b = 126

def encByte (b : Nat) : List Char :=
  if b = 32 then ['+']
  else if isSafeByte b then [Char.ofNat b]
  else ['%', hexDig (b / 16), hexDig (b % 16)]

/-- `urllib.parse.quote_plus`. -/
def quote_plus (s : String) : String :=
  String.mk ((s.toList.flatMap utf8Bytes).flatMap encByte)

def nguyenKimScraper : Scraper :=
  { site_name := "Nguyễn Kim"
    base_url := "https://www.nguyenkim.com"
    search_urls := fun q => ["https://www.nguyenkim.com/search?q=" ++ quote_plus q]
    search_selectors :=
      ["a[href*=\x27/p/\x27]", ".product-item a[href]", ".item a[href]"] }

def dmclScraper : Scraper :=
  { site_name := "Điện Máy Chợ Lớn"
    base_url := "https://www.dienmaycholon.vn"
    search_urls := fun q =>
      ["https://www.dienmaycholon.vn/tim-kiem?kwd=" ++ quote_plus q]
    search_selectors :=
      [".product .b-name a[href]", ".product__box-name a[href]",
        "a[href*=\x27/san-pham/\x27]"] }

def picoScraper : Scraper :=
  { site_name := "Pico"
    base_url := "https://pico.vn"
    search_urls := fun q => ["https://pico.vn/search?q=" ++ quote_plus q]
    search_selectors :=
      [".product-name a[href]", ".proloop-name a[href]",
        "a[href*=\x27/san-pham/\x27]", "a[href$=\x27.html\x27]"] }

def hcScraper : Scraper :=
  { site_name := "HC"
    base_url := "https://hc.com.vn"
    search_urls := fun q =>
      ["https://hc.com.vn/tim-kiem?q=" ++ quote_plus q,
        "https://hc.com.vn/ords/search?q=" ++ quote_plus q]
    search_selectors :=
      [".product-item .product-item-link[href]",
        ".product .product-name a[href]",
        "a[href*=\x27/ords/product/\x27]", "a[href*=\x27/san-pham/\x27]"] }

def ecomartScraper : Scraper :=
  { site_name := "Eco-mart"
    base_url := "https://eco-mart.vn"
    search_urls := fun q =>
      ["https://eco-mart.vn/?s=" ++ quote_plus q ++ "&post_type=product"]
    search_selectors :=
      [".woocommerce-LoopProduct-link.woocommerce-loop-product__link[href]",
        ".product-title a[href]", "a[href*=\x27/product/\x27]",
        "a[href*=\x27/san-pham/\x27]"] }

/-- `SCRAPERS` (Main.py lines 340–346), in registration order. -/
def SCRAPERS : List Scraper :=
  [nguyenKimScraper, dmclScraper, picoScraper, hcScraper, ecomartScraper]

/-- `scrape_all` (Main.py lines 349–356): one unit of work per scraper in
registration order; a raised exception is caught and converted into a
`PriceResult` with only the site and an error note populated. -/
def scrape_all (uj : String → String → String) (env : Env) (q : String) :
    List PriceResult :=
  SCRAPERS.map fun s =>
    match get_price uj env s q with
    | .ok r => r
    | .error e => ⟨s.site_name, none, none, none, some ("Lỗi: " ++ e)⟩

/-! ## `http_get` (Main.py lines 74–86)

```python
def http_get(url, timeout=12, retries=2, backoff=1.5):
    last_err = None
    for i in range(retries + 1):
        try:
            resp = SESSION.get(url, timeout=timeout)
            if resp.status_code in (200, 403, 503):  # still parse to catch JSON-LD
                return resp
            last_err = Exception(f"HTTP {resp.status_code} on {url}")
        except Exception as e:
            last_err = e
        if i < retries:
            time.sleep(backoff ** (i + 1))
    raise last_err or Exception("Unknown HTTP error")
```

The network is an oracle `att : Nat → NetOutcome` giving the outcome of
the `i`-th `SESSION.get(url, timeout=timeout)` call (the timeout is
enforced inside the oracle; a timeout surfaces as `.err`).  The model
returns both the Python result — `Except` for raise vs. return — and the
list of `time.sleep` durations in order, so that the backoff schedule is
part of the observable behaviour.  The literal `1.5` and its powers
`1.5 ** (i + 1)` are exact dyadic rationals for the exponents reachable
here, so `backoff : ℚ` with `backoff ^ (i + 1)` is an exact rendering. -/

inductive NetOutcome where
  | resp (status : Nat) (body : String) : NetOutcome
  | err (msg : String) : NetOutcome

inductive PyErr where
  | http (status : Nat) (url : String) : PyErr
  | net (msg : String) : PyErr
  | unknown : PyErr
deriving DecidableEq

/-- `resp.status_code in (200, 403, 503)`. -/
def acceptedStatus (st : Nat) : Bool :=
  st = 200 || st = 403 || st = 503

/-- Did this attempt return (rather than fall through to a retry)? -/
def isAcceptedOutcome : NetOutcome → Bool
  | .resp st _ => acceptedStatus st
  | .err _ => false

/-- The `last_err` value an attempt leaves behind when it does not return. -/
def pyErrOf (o : NetOutcome) (url : String) : PyErr :=
  match o with
  | .resp st _ => .http st url
  | .err m => .net m

/-- The loop over the remaining iteration indices (`range(retries + 1)`
suffix).  A nonempty tail after a failed attempt corresponds to
`i < retries`, so a sleep of `backoff ^ (i + 1)` is emitted there. -/
def httpLoop (att : Nat → NetOutcome) (url : String) (backoff : ℚ) :
    List Nat → Option PyErr → Except PyErr (Nat × String) × List ℚ
  | [], last => (.error (last.getD .unknown), [])
  | i :: rest, _ =>
    match att i with
    | .resp st body =>
      if acceptedStatus st then (.ok (st, body), [])
      else
        let r := httpLoop att url backoff rest (some (.http st url))
        (r.1, if rest.isEmpty then [] else backoff ^ (i + 1) :: r.2)
    | .err m =>
      let r := httpLoop att url backoff rest (some (.net m))
      (r.1, if rest.isEmpty then [] else backoff ^ (i + 1) :: r.2)

/-- `http_get`: result (returned response `(status, body)`, or the raised
last error) together with the backoff sleeps performed. -/
def http_get (att : Nat → NetOutcome) (url : String) (retries : Nat)
    (backoff : ℚ) : Except PyErr (Nat × String) × List ℚ :=
  httpLoop att url backoff (List.range (retries + 1)) none

/-! ## `main.py`: `extract_price_and_promo` (lines 28–79)

The duplicated source `main.py` selects a raw price string by per-domain
selector logic (abstracted below as the already-selected `rawPrice`
argument), finds promotional text in the page's visible text, and cleans
the price:

```python
match = re.findall(r"(tặng|giảm|ưu đãi|quà tặng)[^.:\\n]{0,100}", text, re.IGNORECASE)
promo = match[0] if match else None
if price:
    price = re.sub(r"[^\d]", "", price)
    if price:
        price = f"{int(price):,}đ".replace(",", ".")
return price, promo.strip() if promo else None
```

Two facts matter for the translation:

* `re.findall` with one capture group returns the *group* matches, so
  `match[0]` is the first matched keyword ALONE (in the casing it has in
  the text) — the trailing `[^.:\\n]{0,100}` context is matched but not
  captured.  (In the raw string, `\\n` is an escaped backslash plus `n`,
  not a newline — irrelevant to the captured group.)
* `f"{int(price):,}"` renders the integer value in decimal with a
  separator every three digits from the right — i.e. it first strips the
  leading zeros of the digit string (`int` followed by decimal rendering)
  and then groups exactly as `vn_number`'s regrouping loop does; the
  subsequent `.replace(",", ".")` turns the separators into dots. -/

/-- Case folding for `re.IGNORECASE`, covering ASCII plus the uppercase
forms of the Vietnamese letters occurring in the promo keywords. -/
def caseFold (c : Char) : Char :=
  if 'A' ≤ c ∧ c ≤ 'Z' then Char.ofNat (c.toNat + 32)
  else if c = 'Ặ' then 'ặ'
  else if c = 'Ả' then 'ả'
  else if c = 'Ư' then 'ư'
  else if c = 'Đ' then 'đ'
  else if c = 'Ã' then 'ã'
  else if c = 'À' then 'à'
  else c

/-- The alternation `(tặng|giảm|ưu đãi|quà tặng)`, in source order. -/
def promoKeywords : List (List Char) :=
  ["tặng".toList, "giảm".toList, "ưu đãi".toList, "quà tặng".toList]

/-- Does keyword `kw` (lowercase) match case-insensitively at the start
of `l`? -/
def icAt (kw l : List Char) : Bool :=
  leadsWith kw ((l.take kw.length).map caseFold)

/-- The keyword alternatives tried in order at one position; on success
the *original-casing* slice of the text is the captured group. -/
def promoHere (l : List Char) : Option (List Char) :=
  match promoKeywords.filter (fun kw => icAt kw l) with
  | kw :: _ => some (l.take kw.length)
  | [] => none

/-- `match[0]` of the `findall`: leftmost position, first alternative. -/
def promoScan : List Char → Option (List Char)
  | [] => none
  | c :: rest =>
    match promoHere (c :: rest) with
    | some w => some w
    | none => promoScan rest

/-- The promo component of `extract_price_and_promo`:
`promo.strip() if promo else None`. -/
def extract_promo (text : String) : Option String :=
  (promoScan text.toList).map fun w => String.mk (pyStrip w)

/-- `int(digits)` followed by decimal rendering, on a nonempty digit
string: strip leading zeros, keeping a single `'0'` when the value is
zero. -/
def stripZeros (d : List Char) : List Char :=
  match d.dropWhile (fun c => c = '0') with
  | [] => ['0']
  | l => l

/-- The price-cleanup component of `extract_price_and_promo` (lines
73–77): on a non-`None` raw price, keep the digits; if none remain the
falsy empty string is left in place; otherwise format with
comma-separators, append `đ`, and replace commas with dots. -/
def clean_price : Option String → Option String
  | none => none
  | some price =>
    let d := price.toList.filter Char.isDigit
    if d = [] then some ""
    else
      let grouped := sepJoin ',' (grpRev (stripZeros d).reverse).reverse
      some (String.mk (replList [','] ['.'] (grouped ++ ['đ'])))

/-- `extract_price_and_promo`, given the per-domain raw price candidate
selected by the preceding branch (abstracted as an argument: the
selector logic itself is site markup, not under test here). -/
def extract_price_and_promo (text : String) (rawPrice : Option String) :
    Option String × Option String :=
  (clean_price rawPrice, extract_promo text)

/-- `main.py` line 103, the title rule of `get_product_info`:
`title = title_tag.text.strip() if title_tag else query` (`tagText` is the
text of whichever per-domain h1 tag was looked up). -/
def mainpy_title (tagText : Option String) (query : String) : String :=
  match tagText with
  | some t => String.mk (pyStrip t.toList)
  | none => query

/-! ### Concrete fixtures used by witness theorems -/

/-- A concrete URL-join function to instantiate theorems that are
quantified over the join. -/
def ujW : String → String → String := fun base rel => base ++ rel

/-- A search page whose first selector hit is an absolute product link. -/
def soupLinkW : Soup :=
  { selOneHref := fun css =>
      if css = "a[href*=\x27/p/\x27]" then some (some "http://p1") else none
    h1Text := none, titleString := none, jsonld := [], domVals := []
    fullText := "" }

/-- An environment where the first adapter's search page resolves but the
subsequent product-page fetch raises. -/
def envC1W : Env :=
  { fetch := fun u =>
      if u = "https://www.nguyenkim.com/search?q=x" then .ok soupLinkW
      else .error "boom" }

/-- A product page carrying both a JSON-LD offers price and a competing
DOM-stage candidate. -/
def soupC5W : Soup :=
  { selOneHref := fun _ => none, h1Text := none, titleString := none
    jsonld := [Json.obj (.cons "offers"
      (Json.obj (.cons "price" (Json.str "12990000") .nil)) .nil)]
    domVals := ["999.999 đ"], fullText := "" }

def envC5W : Env := { fetch := fun _ => .ok soupC5W }

/-- An environment where every fetch raises. -/
def envFailW : Env := { fetch := fun _ => .error "net down" }

/-- A product page with no `h1`, no `title` tag and no price data. -/
def soupBareW : Soup :=
  { selOneHref := fun _ => none, h1Text := none, titleString := none
    jsonld := [], domVals := [], fullText := "" }

def envC8W : Env := { fetch := fun _ => .ok soupBareW }

/-- A product page with a nonempty `h1`. -/
def soupH1W : Soup :=
  { selOneHref := fun _ => none, h1Text := some "Noi chien", titleString := none
    jsonld := [], domVals := [], fullText := "" }

def envC8bW : Env := { fetch := fun _ => .ok soupH1W }

/-- A network oracle whose every attempt raises. -/
def attW : Nat → NetOutcome := fun _ => .err "timeout"

/-! # Theorems

Helper lemmas about the regrouping/matching machinery, then one theorem
(plus witness / counterexample) per claim. -/

/-- The chunks produced by the regrouping loop, concatenated in output
order, restore the digit string. -/
theorem grpRev_flatten : ∀ m : List Char, ((grpRev m).reverse).flatten = m.reverse := by
  intro m
  induction m using grpRev.induct with
  | case1 => simp [grpRev]
  | case2 a => simp [grpRev]
  | case3 a b => simp [grpRev]
  | case4 a b c rest ih => simp [grpRev, ih]

/-- Shape of the regrouped chunk list: a leading chunk of 1–3 digits
followed by chunks of exactly 3. -/
theorem grpRev_shape : ∀ m : List Char, m ≠ [] →
    ∃ c0 gs, (grpRev m).reverse = c0 :: gs ∧ 1 ≤ c0.length ∧ c0.length ≤ 3 ∧
      ∀ g ∈ gs, g.length = 3 := by
  intro m
  induction m using grpRev.induct with
  | case1 => intro h; exact absurd rfl h
  | case2 a => intro _; exact ⟨[a], [], by simp [grpRev], by simp, by simp, by simp⟩
  | case3 a b => intro _; exact ⟨[b, a], [], by simp [grpRev], by simp, by simp, by simp⟩
  | case4 a b c rest ih =>
    intro _
    by_cases hr : rest = []
    · subst hr
      exact ⟨[c, b, a], [], by simp [grpRev], by simp, by simp, by simp⟩
    · obtain ⟨c0, gs, hcs, h1, h3, hgs⟩ := ih hr
      refine ⟨c0, gs ++ [[c, b, a]], ?_, h1, h3, ?_⟩
      · simp [grpRev, hcs]
      · intro g hg
        rcases List.mem_append.mp hg with h | h
        · exact hgs g h
        · simp at h; subst h; rfl

/-- `".".join` of a nonempty chunk list, in "head plus dotted units" form. -/
theorem sepJoin_dot_cons (c0 : List Char) (gs : List (List Char)) :
    sepJoin '.' (c0 :: gs) = c0 ++ (gs.map (fun g => '.' :: g)).flatten := by
  induction gs generalizing c0 with
  | nil => simp [sepJoin]
  | cons g gs ih => simp [sepJoin, ih g]

/-- `takeWhile` passes over an all-digit block. -/
theorem takeWhile_digit_append (a b : List Char) (h : ∀ c ∈ a, c.isDigit = true) :
    (a ++ b).takeWhile Char.isDigit = a ++ b.takeWhile Char.isDigit := by
  induction a with
  | nil => simp
  | cons x xs ih =>
    have hx : x.isDigit = true := h x (by simp)
    simp only [List.cons_append, List.takeWhile_cons, hx, if_true]
    rw [ih (fun c hc => h c (by simp [hc]))]

/-- `takeUnits` stops immediately when no unit starts. -/
theorem takeUnits_eq_nil (l : List Char) (h : canUnit l = false) :
    takeUnits l = [] := by
  match l with
  | [] => rfl
  | [a] => rfl
  | [a, b] => rfl
  | [a, b, c] => rfl
  | a :: b :: c :: d :: rest =>
    simp only [canUnit] at h
    simp [takeUnits, h]

/-- `takeUnits` consumes exactly a run of well-formed dotted 3-digit
units when the continuation does not begin with a unit. -/
theorem takeUnits_units : ∀ (gs : List (List Char)) (sfx : List Char),
    (∀ g ∈ gs, g.length = 3 ∧ ∀ c ∈ g, c.isDigit = true) → canUnit sfx = false →
    takeUnits ((gs.map (fun g => '.' :: g)).flatten ++ sfx) =
      (gs.map (fun g => '.' :: g)).flatten := by
  intro gs
  induction gs with
  | nil => intro sfx _ hs; simpa using takeUnits_eq_nil sfx hs
  | cons g gs ih =>
    intro sfx hg hs
    obtain ⟨u, v, w, huvw⟩ := List.length_eq_three.mp (hg g (by simp)).1
    have hd := (hg g (by simp)).2
    have hu : u.isDigit = true := hd u (by simp [huvw])
    have hv : v.isDigit = true := hd v (by simp [huvw])
    have hw : w.isDigit = true := hd w (by simp [huvw])
    have ht := ih sfx (fun g hgg => hg g (by simp [hgg])) hs
    simp only [List.map_cons, List.flatten_cons, huvw, List.cons_append,
      List.append_assoc]
    simp [takeUnits, isSepCh, hu, hv, hw]
    simpa [List.append_assoc] using ht

/-- Filtering the digits out of a dotted-unit run restores the chunks. -/
theorem filter_units : ∀ gs : List (List Char),
    (∀ g ∈ gs, ∀ c ∈ g, c.isDigit = true) →
    ((gs.map (fun g => '.' :: g)).flatten).filter Char.isDigit = gs.flatten := by
  intro gs
  induction gs with
  | nil => simp
  | cons g gs ih =>
    intro h
    simp only [List.map_cons, List.flatten_cons, List.filter_append,
      List.filter_cons]
    rw [List.filter_eq_self.mpr (h g (by simp)), ih (fun g hg => h g (by simp [hg]))]
    simp

/-- Key fixed-point lemma: the canonical output of the normaliser — an
all-digit string of length ≥ 5 regrouped into dotted clusters plus the
currency suffix — is sent to itself by another pass of the normaliser. -/
theorem vnNumList_fixed (d : List Char) (hdig : ∀ c ∈ d, c.isDigit = true)
    (hlen : 5 ≤ d.length) :
    vnNumList (regroup3 d ++ [' ', '₫']) = some (regroup3 d ++ [' ', '₫']) := by
  have hdne : d ≠ [] := by intro h; subst h; simp at hlen
  have hrevne : d.reverse ≠ [] := by simpa using hdne
  obtain ⟨c0, gs, hcs, hc01, hc03, hgs3⟩ := grpRev_shape d.reverse hrevne
  have hflat : (c0 :: gs).flatten = d := by
    have h2 := grpRev_flatten d.reverse
    rw [hcs] at h2; simpa using h2
  have hmem : ∀ c ∈ (c0 :: gs).flatten, c.isDigit = true := by
    rw [hflat]; exact hdig
  have hc0dig : ∀ c ∈ c0, c.isDigit = true := fun c hc =>
    hmem c (List.mem_flatten.mpr ⟨c0, by simp, hc⟩)
  have hgsdig : ∀ g ∈ gs, ∀ c ∈ g, c.isDigit = true := fun g hg c hc =>
    hmem c (List.mem_flatten.mpr ⟨g, by simp [hg], hc⟩)
  have hgsne : gs ≠ [] := by
    intro h; subst h
    have hlen2 : c0.length = d.length := by
      have := congrArg List.length hflat
      simpa using this
    omega
  have hre : regroup3 d = c0 ++ (gs.map (fun g => '.' :: g)).flatten := by
    unfold regroup3; rw [hcs]; exact sepJoin_dot_cons c0 gs
  obtain ⟨x, c0t, hc0⟩ : ∃ x t, c0 = x :: t := by
    cases c0 with
    | nil => simp at hc01
    | cons x t => exact ⟨x, t, rfl⟩
  obtain ⟨g1, gs', hgs⟩ : ∃ g1 gs', gs = g1 :: gs' := by
    cases gs with
    | nil => exact absurd rfl hgsne
    | cons g1 gs' => exact ⟨g1, gs', rfl⟩
  obtain ⟨u, v, w, hg1⟩ := List.length_eq_three.mp (hgs3 g1 (by simp [hgs]))
  have hxdig : x.isDigit = true := hc0dig x (by simp [hc0])
  have hudig : u.isDigit = true := hgsdig g1 (by simp [hgs]) u (by simp [hg1])
  have hvdig : v.isDigit = true := hgsdig g1 (by simp [hgs]) v (by simp [hg1])
  have hwdig : w.isDigit = true := hgsdig g1 (by simp [hgs]) w (by simp [hg1])
  have htw : (regroup3 d ++ [' ', '₫']).takeWhile Char.isDigit = c0 := by
    rw [hre, List.append_assoc, takeWhile_digit_append c0 _ hc0dig]
    rw [hgs, hg1]
    simp [List.takeWhile_cons]
  have hdrop : (regroup3 d ++ [' ', '₫']).drop c0.length =
      (gs.map (fun g => '.' :: g)).flatten ++ [' ', '₫'] := by
    rw [hre, List.append_assoc]
    exact List.drop_left c0 _
  have hcan : canUnit ((gs.map (fun g => '.' :: g)).flatten ++ [' ', '₫']) = true := by
    rw [hgs, hg1]
    simp [canUnit, isSepCh, hudig, hvdig, hwdig]
  have htu : takeUnits ((gs.map (fun g => '.' :: g)).flatten ++ [' ', '₫']) =
      (gs.map (fun g => '.' :: g)).flatten :=
    takeUnits_units gs [' ', '₫'] (fun g hg => ⟨hgs3 g hg, hgsdig g hg⟩) (by decide)
  have hmatch : matchAt (regroup3 d ++ [' ', '₫']) = regroup3 d := by
    unfold matchAt
    simp only [htw, hdrop, hcan, Bool.and_true]
    rw [if_pos (by simpa using hc03)]
    rw [htu, hre]
  have hsearch : vnSearch (regroup3 d ++ [' ', '₫']) =
      some (matchAt (regroup3 d ++ [' ', '₫'])) := by
    have hL : regroup3 d ++ [' ', '₫'] =
        x :: (c0t ++ ((gs.map (fun g => '.' :: g)).flatten ++ [' ', '₫'])) := by
      rw [hre, hc0]; simp
    rw [hL]
    simp [vnSearch, hxdig]
  have hfilter : (matchAt (regroup3 d ++ [' ', '₫'])).filter Char.isDigit = d := by
    rw [hmatch, hre, List.filter_append, List.filter_eq_self.mpr hc0dig,
      filter_units gs hgsdig]
    simpa using hflat
  have hLne : regroup3 d ++ [' ', '₫'] ≠ [] := by
    rw [hre, hc0]; simp
  unfold vnNumList
  rw [if_neg hLne, hsearch]
  simp only [hfilter]
  rw [if_neg (by omega : ¬ d.length < 5)]

/-- C4: `vn_number` is idempotent on its own output — whenever
`vn_number s` produces a price string `p`, a second application maps `p`
to itself. -/
theorem vn_number_idempotent (s p : String) (h : vn_number s = some p) :
    vn_number p = some p := by
  unfold vn_number at h
  obtain ⟨lp, hlp, hmk⟩ : ∃ lp, vnNumList s.toList = some lp ∧ String.mk lp = p := by
    cases hv : vnNumList s.toList with
    | none => rw [hv] at h; simp at h
    | some lp => rw [hv] at h; simp at h; exact ⟨lp, rfl, h⟩
  unfold vnNumList at hlp
  by_cases hs : s.toList = []
  · rw [if_pos hs] at hlp; simp at hlp
  · rw [if_neg hs] at hlp
    cases hm : vnSearch s.toList with
    | none => rw [hm] at hlp; simp at hlp
    | some m =>
      rw [hm] at hlp
      simp only at hlp
      by_cases hlt : (m.filter Char.isDigit).length < 5
      · rw [if_pos hlt] at hlp; simp at hlp
      · rw [if_neg hlt] at hlp
        have hl : lp = regroup3 (m.filter Char.isDigit) ++ [' ', '₫'] := by
          simpa using hlp.symm
        have hdig : ∀ c ∈ m.filter Char.isDigit, c.isDigit = true := fun c hc =>
          List.of_mem_filter hc
        have hfix := vnNumList_fixed (m.filter Char.isDigit) hdig (by omega)
        subst hl
        unfold vn_number
        have htl : (String.mk (regroup3 (m.filter Char.isDigit) ++ [' ', '₫'])).toList =
            regroup3 (m.filter Char.isDigit) ++ [' ', '₫'] := rfl
        rw [← hmk, htl, hfix]
        rfl

/-- Witness for C4 at a concrete input. -/
theorem vn_number_idempotent_witness :
    vn_number "1234567" = some "1.234.567 ₫" ∧
    vn_number "1.234.567 ₫" = some "1.234.567 ₫" :=
  ⟨by decide, vn_number_idempotent "1234567" "1.234.567 ₫" (by decide)⟩

/-- C3: behaviour of the price normaliser — the three specified
evaluations; rejection (`none`) whenever the digits of the leftmost
numeric match number fewer than five; and every produced price string is
an all-digit string of length ≥ 5 regrouped into dotted 3-digit clusters
from the right with the currency symbol appended. -/
theorem vn_number_normalization :
    vn_number "3 cái" = none ∧
    vn_number "1.234.567đ" = some "1.234.567 ₫" ∧
    vn_number "1234567" = some "1.234.567 ₫" ∧
    (∀ (s : String) (m : List Char), vnSearch s.toList = some m →
      (m.filter Char.isDigit).length < 5 → vn_number s = none) ∧
    (∀ (s p : String), vn_number s = some p → ∃ d : List Char,
      (∀ c ∈ d, c.isDigit = true) ∧ 5 ≤ d.length ∧
      p = String.mk (regroup3 d ++ [' ', '₫'])) := by
  refine ⟨by decide, by decide, by decide, ?_, ?_⟩
  · intro s m hm hlt
    unfold vn_number vnNumList
    by_cases hs : s.toList = []
    · rw [if_pos hs]; rfl
    · rw [if_neg hs, hm]
      simp only
      rw [if_pos hlt]
      rfl
  · intro s p h
    unfold vn_number vnNumList at h
    by_cases hs : s.toList = []
    · rw [if_pos hs] at h; simp at h
    · rw [if_neg hs] at h
      cases hm : vnSearch s.toList with
      | none => rw [hm] at h; simp at h
      | some m =>
        rw [hm] at h
        simp only at h
        by_cases hlt : (m.filter Char.isDigit).length < 5
        · rw [if_pos hlt] at h; simp at h
        · rw [if_neg hlt] at h
          have hp : String.mk (regroup3 (m.filter Char.isDigit) ++ [' ', '₫']) = p := by
            simpa using h
          exact ⟨m.filter Char.isDigit,
            fun c hc => List.of_mem_filter hc, by omega, hp.symm⟩

/-- Witness for C3: the rejection rule applied at concrete inputs. -/
theorem vn_number_normalization_witness :
    vn_number "1234" = none ∧ vn_number "3 cái" = none :=
  ⟨vn_number_normalization.2.2.2.1 "1234" ['1', '2', '3', '4'] (by decide) (by decide),
   vn_number_normalization.1⟩

/-- Replacement of a single character is a pointwise map. -/
theorem replAux_single (a b : Char) : ∀ (f : Nat) (l : List Char), l.length ≤ f →
    replAux f [a] [b] l = l.map (fun c => if c = a then b else c) := by
  intro f
  induction f with
  | zero =>
    intro l hl
    have hnil : l = [] := List.length_eq_zero.mp (Nat.le_zero.mp hl)
    subst hnil; rfl
  | succ f ih =>
    intro l hl
    cases l with
    | nil => rfl
    | cons c rest =>
      have ih2 := ih rest (by simpa using Nat.le_of_succ_le_succ hl)
      by_cases hc : c = a
      · subst hc
        simp only [replAux]
        rw [if_pos (by simp [leadsWith])]
        simp [ih2]
      · simp only [replAux]
        rw [if_neg (by simp [leadsWith]; exact fun h => absurd h.symm hc)]
        simp [ih2, hc]

/-- Mapping a character transformation through a separator join. -/
theorem map_sepJoin (r : Char → Char) (s : Char) : ∀ cs : List (List Char),
    (sepJoin s cs).map r = sepJoin (r s) (cs.map (fun g => g.map r)) := by
  intro cs
  match cs with
  | [] => rfl
  | [g] => rfl
  | g :: g2 :: gs =>
    simp only [sepJoin, List.map_append, List.map_cons]
    rw [map_sepJoin r s (g2 :: gs)]
    rfl

/-- The comma-to-dot substitution fixes all-digit chunks. -/
theorem map_digit_id (g : List Char) (h : ∀ c ∈ g, c.isDigit = true) :
    g.map (fun c => if c = ',' then '.' else c) = g := by
  induction g with
  | nil => rfl
  | cons c rest ih =>
    have hc : c ≠ ',' := by
      intro hh
      have := h c (by simp)
      rw [hh] at this
      simp [Char.isDigit] at this
    simp only [List.map_cons, if_neg hc]
    rw [ih (fun c hc2 => h c (by simp [hc2]))]

/-- C9 counterexample: on the all-digit input `"12345"` the two
formatters produce different strings — `Main.py`'s `vn_number` appends
`" ₫"` while `main.py`'s cleanup step appends `"đ"`. -/
theorem price_formatters_differ :
    vn_number "12345" = some "12.345 ₫" ∧
    clean_price (some "12345") = some "12.345đ" ∧
    (some "12.345 ₫" : Option String) ≠ some "12.345đ" :=
  ⟨by decide, by decide, by decide⟩

/-- C9 (amended): on every digit string of length ≥ 5 whose leading
digit is nonzero, the two formatters agree on the dotted digit grouping
and differ only in the currency suffix (`" ₫"` versus `"đ"`). -/
theorem price_formatters_agree (d : List Char)
    (hdig : ∀ c ∈ d, c.isDigit = true) (hlen : 5 ≤ d.length)
    (h0 : d.head? ≠ some '0') :
    vn_number (String.mk d) = some (String.mk (regroup3 d ++ [' ', '₫'])) ∧
    clean_price (some (String.mk d)) = some (String.mk (regroup3 d ++ ['đ'])) := by
  obtain ⟨c, t, hd⟩ : ∃ c t, d = c :: t := by
    cases d with
    | nil => simp at hlen
    | cons c t => exact ⟨c, t, rfl⟩
  have hcdig : c.isDigit = true := hdig c (by simp [hd])
  have htl : (String.mk d).toList = d := rfl
  have htw : d.takeWhile Char.isDigit = d := by
    have := takeWhile_digit_append d [] hdig
    simpa using this
  have hmatch : matchAt d = d := by
    unfold matchAt
    simp only [htw]
    rw [if_neg]
    simp only [Bool.and_eq_true, decide_eq_true_eq]
    intro hcontra
    omega
  have hsearch : vnSearch d = some d := by
    rw [hd]
    simp only [vnSearch, hcdig, if_true]
    rw [← hd, hmatch]
  have hfil : d.filter Char.isDigit = d := List.filter_eq_self.mpr hdig
  constructor
  · unfold vn_number vnNumList
    rw [htl, if_neg (by simp [hd]), hsearch]
    simp only [hfil]
    rw [if_neg (by omega : ¬ d.length < 5)]
    rfl
  · have hcp : clean_price (some (String.mk d)) =
        (if d.filter Char.isDigit = [] then some "" else
          some (String.mk (replList [','] ['.']
            (sepJoin ',' (grpRev (stripZeros (d.filter Char.isDigit)).reverse).reverse
              ++ ['đ'])))) := rfl
    rw [hcp, hfil, if_neg (by simp [hd])]
    have hstrip : stripZeros d = d := by
      unfold stripZeros
      rw [hd]
      have hc0 : ¬ (c = '0') := by
        intro hh
        rw [hd, hh] at h0
        simp at h0
      rw [List.dropWhile_cons, if_neg (by simpa using hc0)]
    rw [hstrip]
    unfold replList
    rw [replAux_single ',' '.' _ _ (by simp)]
    simp only [List.map_append]
    rw [map_sepJoin]
    have hchunks : ∀ g ∈ (grpRev d.reverse).reverse, ∀ x ∈ g, x.isDigit = true := by
      intro g hg x hx
      have hxd : x ∈ d := by
        have hfl := grpRev_flatten d.reverse
        have : x ∈ ((grpRev d.reverse).reverse).flatten :=
          List.mem_flatten.mpr ⟨g, hg, hx⟩
        rw [hfl] at this
        simpa using this
      exact hdig x hxd
    have hmapid : ∀ cs : List (List Char), (∀ g ∈ cs, ∀ x ∈ g, x.isDigit = true) →
        cs.map (fun g => g.map (fun c => if c = ',' then '.' else c)) = cs := by
      intro cs
      induction cs with
      | nil => intro _; rfl
      | cons g gs ih =>
        intro h
        simp only [List.map_cons]
        rw [map_digit_id g (h g (by simp)), ih (fun g2 hg2 => h g2 (by simp [hg2]))]
    rw [hmapid _ hchunks]
    simp [regroup3]

/-- Witness for C9's amended statement at a concrete digit string. -/
theorem price_formatters_agree_witness :
    vn_number (String.mk ['6', '7', '8', '9', '0']) =
      some (String.mk (regroup3 ['6', '7', '8', '9', '0'] ++ [' ', '₫'])) ∧
    clean_price (some (String.mk ['6', '7', '8', '9', '0'])) =
      some (String.mk (regroup3 ['6', '7', '8', '9', '0'] ++ ['đ'])) :=
  price_formatters_agree ['6', '7', '8', '9', '0'] (by decide) (by decide) (by decide)

/-- C2 (supporting theorem): for the query `"AC-381"` the variant set
holds exactly the original, the compacted and the spaced form, without
duplicates.  (Only the element content is asserted against the source:
Python's `list(set)` order is hash-dependent — see
`normalize_query_variants`.) -/
theorem normalize_variants_ac381_content :
    (normalize_query_variants "AC-381").Perm ["AC-381", "AC381", "AC 381"] ∧
    (normalize_query_variants "AC-381").Nodup := by
  have h : normalize_query_variants "AC-381" = ["AC-381", "AC381", "AC 381"] := by
    decide
  rw [h]
  exact ⟨List.Perm.refl _, by decide⟩

/-- Unfolding equation: `parse_product` when the product fetch raises. -/
theorem parse_product_error (env : Env) (s : Scraper) (url : String)
    (e : String) (he : env.fetch url = .error e) :
    parse_product env s url = .error e := by
  unfold parse_product
  rw [he]

/-- Unfolding equation: `parse_product` on a fetched page. -/
theorem parse_product_ok (env : Env) (s : Scraper) (url : String)
    (soup : Soup) (hf : env.fetch url = .ok soup) :
    parse_product env s url = .ok ⟨s.site_name, compute_title soup,
      (match parse_jsonld_price soup.jsonld with
       | some p => some p
       | none => parse_dom_price soup), some url,
      if (match parse_jsonld_price soup.jsonld with
          | some p => some p
          | none => parse_dom_price soup) = none then
        some "Không tìm thấy giá rõ ràng (trang có thể render bằng JS)."
      else none⟩ := by
  unfold parse_product
  rw [hf]

/-- Unfolding equation: `get_price` when discovery finds nothing. -/
theorem get_price_notfound (uj : String → String → String) (env : Env)
    (s : Scraper) (q : String) (hf : find_product_url uj env s q = none) :
    get_price uj env s q = .ok ⟨s.site_name, none, none, none,
      some "Không tìm thấy link sản phẩm từ trang tìm kiếm."⟩ := by
  unfold get_price
  rw [hf]

/-- Unfolding equation: `get_price` when discovery finds a URL. -/
theorem get_price_found (uj : String → String → String) (env : Env)
    (s : Scraper) (q url : String) (hf : find_product_url uj env s q = some url) :
    get_price uj env s q = parse_product env s url := by
  unfold get_price
  rw [hf]

/-- A successful `get_price` result always carries the scraper's site
name. -/
theorem get_price_site (uj : String → String → String) (env : Env)
    (s : Scraper) (q : String) (pr : PriceResult)
    (h : get_price uj env s q = .ok pr) : pr.site = s.site_name := by
  cases hf : find_product_url uj env s q with
  | none =>
    rw [get_price_notfound uj env s q hf] at h
    rw [← Except.ok.inj h]
  | some url =>
    rw [get_price_found uj env s q url hf] at h
    cases he : env.fetch url with
    | error e => rw [parse_product_error env s url e he] at h; simp at h
    | ok soup =>
      rw [parse_product_ok env s url soup he] at h
      rw [← Except.ok.inj h]

/-- C1: for every URL-join function, environment and non-empty query,
`scrape_all` yields exactly one `PriceResult` per registered scraper —
five in total — in registration order; the `i`-th result carries the
`i`-th scraper's site name, depends only on that scraper's own unit of
work, and when that unit of work raises, the result is the conversion
with only the site and the error note populated. -/
theorem scrape_all_shape (uj : String → String → String) (env : Env)
    (q : String) (_hq : q ≠ "") (i : Nat) (hi : i < SCRAPERS.length) :
    (scrape_all uj env q).length = 5 ∧
    ∃ r, (scrape_all uj env q)[i]? = some r ∧
      r.site = (SCRAPERS.get ⟨i, hi⟩).site_name ∧
      (∀ e, get_price uj env (SCRAPERS.get ⟨i, hi⟩) q = .error e →
        r = ⟨(SCRAPERS.get ⟨i, hi⟩).site_name, none, none, none,
          some ("Lỗi: " ++ e)⟩) ∧
      (∀ pr, get_price uj env (SCRAPERS.get ⟨i, hi⟩) q = .ok pr → r = pr) := by
  constructor
  · rw [scrape_all, List.length_map]; rfl
  · refine ⟨match get_price uj env (SCRAPERS.get ⟨i, hi⟩) q with
      | .ok pr => pr
      | .error e => ⟨(SCRAPERS.get ⟨i, hi⟩).site_name, none, none, none,
          some ("Lỗi: " ++ e)⟩, ?_, ?_, ?_, ?_⟩
    · rw [scrape_all, List.getElem?_map, List.getElem?_eq_getElem hi]
      rfl
    · cases hg : get_price uj env (SCRAPERS.get ⟨i, hi⟩) q with
      | ok pr => simpa using get_price_site uj env _ q pr hg
      | error e => simp
    · intro e he
      rw [he]
    · intro pr hpr
      rw [hpr]

/-- Witness for C1: a concrete environment where the first adapter's
product fetch raises (`"boom"`); the conversion populates only the site
and the note, and the result list still has five entries. -/
theorem scrape_all_shape_witness :
    (scrape_all ujW envC1W "x").length = 5 ∧
    (scrape_all ujW envC1W "x")[0]? =
      some ⟨"Nguyễn Kim", none, none, none, some "Lỗi: boom"⟩ := by
  obtain ⟨hlen, r, hr, _, herr, _⟩ :=
    scrape_all_shape ujW envC1W "x" (by decide) 0 (by decide)
  refine ⟨hlen, ?_⟩
  rw [hr, herr "boom" (by rfl)]
  rfl

/-- C5: stage order of the price extraction — whenever the JSON-LD stage
produces a price on a fetched page, that price (and no DOM-stage value)
lands in the `PriceResult`; the DOM stage determines the price exactly
when the JSON-LD stage produces nothing. -/
theorem jsonld_priority (env : Env) (s : Scraper) (url : String) (soup : Soup)
    (hf : env.fetch url = .ok soup) :
    (∀ p, parse_jsonld_price soup.jsonld = some p →
      parse_product env s url =
        .ok ⟨s.site_name, compute_title soup, some p, some url, none⟩) ∧
    (parse_jsonld_price soup.jsonld = none →
      parse_product env s url =
        .ok ⟨s.site_name, compute_title soup, parse_dom_price soup, some url,
          if parse_dom_price soup = none then
            some "Không tìm thấy giá rõ ràng (trang có thể render bằng JS)."
          else none⟩) := by
  constructor
  · intro p hp
    rw [parse_product_ok env s url soup hf, hp]
    simp
  · intro hp
    rw [parse_product_ok env s url soup hf, hp]

/-- Witness for C5: on a page holding both a JSON-LD offers price and a
DOM candidate, the JSON-LD price wins. -/
theorem jsonld_priority_witness :
    parse_product envC5W nguyenKimScraper "u" =
      .ok ⟨"Nguyễn Kim", none, some "12.990.000 ₫", some "u", none⟩ ∧
    parse_dom_price soupC5W = some "999.999 ₫" := by
  have h := (jsonld_priority envC5W nguyenKimScraper "u" soupC5W rfl).1
    "12.990.000 ₫" (by decide)
  exact ⟨h, by decide⟩

/-- The inner URL loop is a first-some scan. -/
theorem urlLoop_eq_findSome (uj : String → String → String) (env : Env)
    (s : Scraper) : ∀ us : List String,
    urlLoop uj env s us = us.findSome? (tryUrl uj env s) := by
  intro us
  induction us with
  | nil => rfl
  | cons u rest ih =>
    simp only [urlLoop, List.findSome?_cons]
    cases tryUrl uj env s u with
    | none => exact ih
    | some link => rfl

/-- The variant loop is a first-some scan over the flattened
variant-then-URL candidate sequence. -/
theorem variantLoop_eq_findSome (uj : String → String → String) (env : Env)
    (s : Scraper) : ∀ vs : List String,
    variantLoop uj env s vs =
      (vs.flatMap s.search_urls).findSome? (tryUrl uj env s) := by
  intro vs
  induction vs with
  | nil => rfl
  | cons v rest ih =>
    simp only [variantLoop, List.flatMap_cons, List.findSome?_append,
      urlLoop_eq_findSome]
    cases hsome : (s.search_urls v).findSome? (tryUrl uj env s) with
    | none => simpa [Option.or] using ih
    | some link => rfl

/-- The anchor chosen by `first_match`: the first selector with a usable
`href` — present, non-empty, not a fragment — resolved against the base
URL unless it already starts with `"http"`. -/
theorem first_match_shape (uj : String → String → String) (soup : Soup)
    (base link : String) : ∀ selectors : List String,
    first_match uj soup selectors base = some link →
    ∃ css ∈ selectors, ∃ href, soup.selOneHref css = some (some href) ∧
      href ≠ "" ∧ leadsWith ['#'] href.toList = false ∧
      ((leadsWith "http".toList href.toList = true ∧ link = href) ∨
       (leadsWith "http".toList href.toList = false ∧
        link = uj base href)) := by
  intro selectors
  induction selectors with
  | nil => intro h; simp [first_match] at h
  | cons css rest ih =>
    intro h
    unfold first_match at h
    cases hs : soup.selOneHref css with
    | none =>
      rw [hs] at h
      obtain ⟨c2, hc2, rest2⟩ := ih h
      exact ⟨c2, by simp [hc2], rest2⟩
    | some oh =>
      cases oh with
      | none =>
        rw [hs] at h
        obtain ⟨c2, hc2, rest2⟩ := ih h
        exact ⟨c2, by simp [hc2], rest2⟩
      | some href =>
        rw [hs] at h
        have h2 : (if (href ≠ "" && !leadsWith ['#'] href.toList) = true then
            some (resolveHref uj base href)
          else first_match uj soup rest base) = some link := h
        by_cases hok : (href ≠ "" && !leadsWith ['#'] href.toList) = true
        · rw [if_pos hok] at h2
          simp only [Bool.and_eq_true, Bool.not_eq_true', decide_eq_true_eq] at hok
          refine ⟨css, by simp, href, hs, hok.1, hok.2, ?_⟩
          have hl : link = resolveHref uj base href := by
            simpa using h2.symm
          unfold resolveHref at hl
          by_cases hh : leadsWith "http".toList href.toList = true
          · exact Or.inl ⟨hh, by rwa [if_pos hh] at hl⟩
          · refine Or.inr ⟨by simpa using hh, ?_⟩
            rw [if_neg hh] at hl
            exact hl
        · rw [if_neg hok] at h2
          obtain ⟨c2, hc2, rest2⟩ := ih h2
          exact ⟨c2, by simp [hc2], rest2⟩

/-- C6: discovery never raises — it is a total function into `Option` in
which a fetch failure contributes nothing; it scans variants, then each
variant's search URLs, then selectors, returning the first usable anchor,
resolved against the adapter's base URL when it does not start with
`"http"`; and it returns `none` (not an exception) when every variant is
exhausted without a match. -/
theorem find_product_url_spec (uj : String → String → String) (env : Env)
    (s : Scraper) (q : String) :
    (find_product_url uj env s q =
      ((normalize_query_variants q).flatMap s.search_urls).findSome?
        (tryUrl uj env s)) ∧
    (∀ u e, env.fetch u = .error e → tryUrl uj env s u = none) ∧
    ((∀ v ∈ normalize_query_variants q, ∀ u ∈ s.search_urls v, ∀ soup,
        env.fetch u = .ok soup →
        first_match uj soup s.search_selectors s.base_url = none) →
      find_product_url uj env s q = none) ∧
    (∀ link, find_product_url uj env s q = some link →
      ∃ u soup, env.fetch u = .ok soup ∧
        ∃ css ∈ s.search_selectors, ∃ href,
          soup.selOneHref css = some (some href) ∧ href ≠ "" ∧
          leadsWith ['#'] href.toList = false ∧
          ((leadsWith "http".toList href.toList = true ∧ link = href) ∨
           (leadsWith "http".toList href.toList = false ∧
            link = uj s.base_url href))) := by
  refine ⟨variantLoop_eq_findSome uj env s _, ?_, ?_, ?_⟩
  · intro u e he
    unfold tryUrl
    rw [he]
  · intro hall
    unfold find_product_url
    rw [variantLoop_eq_findSome]
    rw [List.findSome?_eq_none_iff]
    intro u hu
    obtain ⟨v, hv, hu2⟩ := List.mem_flatMap.mp hu
    unfold tryUrl
    cases he : env.fetch u with
    | error e => rfl
    | ok soup => exact hall v hv u hu2 soup he
  · intro link hlink
    unfold find_product_url at hlink
    rw [variantLoop_eq_findSome] at hlink
    obtain ⟨u, _, htry⟩ := List.exists_of_findSome?_eq_some hlink
    unfold tryUrl at htry
    cases he : env.fetch u with
    | error e => rw [he] at htry; simp at htry
    | ok soup =>
      rw [he] at htry
      obtain ⟨css, hcss, href, h1, h2, h3, h4⟩ :=
        first_match_shape uj soup s.base_url link s.search_selectors htry
      exact ⟨u, soup, he, css, hcss, href, h1, h2, h3, h4⟩

/-- Witness for C6: with every fetch failing, discovery returns `none`
rather than an error, and a failing fetch contributes no candidate. -/
theorem find_product_url_spec_witness :
    find_product_url ujW envFailW nguyenKimScraper "x" = none ∧
    tryUrl ujW envFailW nguyenKimScraper "u0" = none := by
  obtain ⟨_, htry, hnone, _⟩ :=
    find_product_url_spec ujW envFailW nguyenKimScraper "x"
  exact ⟨hnone (fun v _ u _ soup hfetch => by
      simp [envFailW] at hfetch),
    htry "u0" "net down" (by rfl)⟩

/-- C8 counterexample: a successfully fetched product page with no `h1`
and no `title` tag yields a `PriceResult` whose title is absent — the
extraction result is not guaranteed a non-empty title and no query-text
fallback exists in `parse_product`. -/
theorem parse_product_title_missing :
    parse_product envC8W nguyenKimScraper "u" =
      .ok ⟨"Nguyễn Kim", none, none, some "u",
        some "Không tìm thấy giá rõ ràng (trang có thể render bằng JS)."⟩ := by
  rfl

/-- C8 (amended): on a fetched page, the stored title follows the chain
implemented by `Main.py` — the `h1` text when an `h1` exists with
non-empty text, else the stripped `title`-tag string when that tag exists
with a truthy string, else nothing; the query-text fallback exists only in
`main.py`'s `get_product_info`, which uses it in place of (not after) the
metadata step. -/
theorem parse_product_title_chain (env : Env) (s : Scraper) (url : String)
    (soup : Soup) (hf : env.fetch url = .ok soup) :
    (∃ r, parse_product env s url = .ok r ∧ r.title = compute_title soup) ∧
    (∀ t, soup.h1Text = some t → t ≠ "" → compute_title soup = some t) ∧
    ((soup.h1Text = none ∨ soup.h1Text = some "") →
      ∀ ts, soup.titleString = some ts → ts ≠ "" →
        compute_title soup = some (String.mk (pyStrip ts.toList))) ∧
    (soup.h1Text = none → soup.titleString = none → compute_title soup = none) ∧
    (∀ q2 : String, mainpy_title none q2 = q2) ∧
    (∀ t q2, mainpy_title (some t) q2 = String.mk (pyStrip t.toList)) := by
  refine ⟨⟨_, parse_product_ok env s url soup hf, rfl⟩, ?_, ?_, ?_,
    fun _ => rfl, fun _ _ => rfl⟩
  · intro t ht htne
    unfold compute_title
    rw [if_neg (by simp [ht, htne])]
    exact ht
  · intro hfb ts hts htsne
    unfold compute_title
    rw [if_pos hfb, hts]
    show (if ts ≠ "" then some (String.mk (pyStrip ts.toList)) else soup.h1Text) = _
    rw [if_pos htsne]
  · intro h1 hts
    unfold compute_title
    rw [if_pos (Or.inl h1), hts]
    exact h1

/-- Witness for C8's amended statement: the h1 branch on a concrete
page. -/
theorem parse_product_title_chain_witness :
    compute_title soupH1W = some "Noi chien" ∧
    compute_title soupBareW = none := by
  obtain ⟨_, hh1, _, _, _, _⟩ :=
    parse_product_title_chain envC8bW nguyenKimScraper "u" soupH1W rfl
  obtain ⟨_, _, _, hnone, _, _⟩ :=
    parse_product_title_chain envC8W nguyenKimScraper "u" soupBareW rfl
  exact ⟨hh1 "Noi chien" rfl (by decide), hnone rfl rfl⟩

/-- One pass of the retry loop, ending at the first accepted attempt:
`j` failed attempts produce `j` backoff sleeps, then attempt `j` returns
its response. -/
theorem httpLoop_success (att : Nat → NetOutcome) (url : String) (b : ℚ) :
    ∀ (j n a : Nat) (last : Option PyErr), j < n →
    (∀ k, k < j → isAcceptedOutcome (att (a + k)) = false) →
    ∀ st body, att (a + j) = .resp st body → acceptedStatus st = true →
    httpLoop att url b (List.range' a n) last =
      (.ok (st, body), (List.range' a j).map (fun i => b ^ (i + 1))) := by
  intro j
  induction j with
  | zero =>
    intro n a last hn _ st body hr hacc
    obtain ⟨n', rfl⟩ : ∃ n', n = n' + 1 := ⟨n - 1, by omega⟩
    have hr2 : att a = NetOutcome.resp st body := by simpa using hr
    rw [List.range'_succ]
    unfold httpLoop
    rw [hr2]
    simp [hacc]
  | succ j ih =>
    intro n a last hn hfail st body hr hacc
    obtain ⟨n', rfl⟩ : ∃ n', n = n' + 1 := ⟨n - 1, by omega⟩
    have hne : ¬ (List.range' (a + 1) n').isEmpty = true := by
      have hn0 : n' ≠ 0 := by omega
      simp [List.isEmpty_iff, List.range'_eq_nil, hn0]
    have hihstep : ∀ last2, httpLoop att url b (List.range' (a + 1) n') last2 =
        (.ok (st, body), (List.range' (a + 1) j).map (fun i => b ^ (i + 1))) :=
      fun last2 => ih n' (a + 1) last2 (by omega)
        (fun k hk => by
          have hx := hfail (k + 1) (by omega)
          rwa [show a + (k + 1) = a + 1 + k by omega] at hx)
        st body (by rwa [show a + 1 + j = a + (j + 1) by omega]) hacc
    have hfa := hfail 0 (by omega)
    have hfa2 : isAcceptedOutcome (att a) = false := by simpa using hfa
    rw [List.range'_succ]
    rw [show List.range' a (j + 1) = a :: List.range' (a + 1) j from
      List.range'_succ a j 1]
    cases hatt : att a with
    | resp st0 body0 =>
      have hst0 : acceptedStatus st0 = false := by
        rw [hatt] at hfa2
        simpa [isAcceptedOutcome] using hfa2
      unfold httpLoop
      rw [hatt]
      simp only [hst0, Bool.false_eq_true, if_false, if_neg hne,
        hihstep (some (.http st0 url))]
      simp
    | err m =>
      unfold httpLoop
      rw [hatt]
      simp only [if_neg hne, hihstep (some (.net m))]
      simp

/-- The retry loop when every attempt fails: all `n` attempts are made,
`n - 1` sleeps occur, and the last attempt's error is raised. -/
theorem httpLoop_fail (att : Nat → NetOutcome) (url : String) (b : ℚ) :
    ∀ (n a : Nat) (last : Option PyErr), 1 ≤ n →
    (∀ k, k < n → isAcceptedOutcome (att (a + k)) = false) →
    httpLoop att url b (List.range' a n) last =
      (.error (pyErrOf (att (a + (n - 1))) url),
        (List.range' a (n - 1)).map (fun i => b ^ (i + 1))) := by
  intro n
  induction n with
  | zero => intro a last h; omega
  | succ n' ih =>
    intro a last _ hfail
    have hfa : isAcceptedOutcome (att a) = false := by
      simpa using hfail 0 (by omega)
    rw [List.range'_succ]
    by_cases hn' : n' = 0
    · subst hn'
      cases hatt : att a with
      | resp st0 body0 =>
        have hst0 : acceptedStatus st0 = false := by
          rw [hatt] at hfa
          simpa [isAcceptedOutcome] using hfa
        unfold httpLoop
        rw [hatt]
        simp only [hst0, Bool.false_eq_true, if_false]
        simp [List.range'_zero, httpLoop, pyErrOf, hatt]
      | err m =>
        unfold httpLoop
        rw [hatt]
        simp [List.range'_zero, httpLoop, pyErrOf, hatt]
    · have hne : ¬ (List.range' (a + 1) n').isEmpty = true := by
        simp [List.isEmpty_iff, List.range'_eq_nil, hn']
      have hihs : ∀ last2, httpLoop att url b (List.range' (a + 1) n') last2 =
          (.error (pyErrOf (att (a + 1 + (n' - 1))) url),
            (List.range' (a + 1) (n' - 1)).map (fun i => b ^ (i + 1))) :=
        fun last2 => ih (a + 1) last2 (by omega)
          (fun k hk => by
            have hx := hfail (k + 1) (by omega)
            rwa [show a + (k + 1) = a + 1 + k by omega] at hx)
      have hidx : a + 1 + (n' - 1) = a + (n' + 1 - 1) := by omega
      have hsleeps : List.range' a (n' + 1 - 1) = a :: List.range' (a + 1) (n' - 1) := by
        rw [show n' + 1 - 1 = (n' - 1) + 1 by omega]
        exact List.range'_succ a (n' - 1) 1
      rw [hsleeps]
      cases hatt : att a with
      | resp st0 body0 =>
        have hst0 : acceptedStatus st0 = false := by
          rw [hatt] at hfa
          simpa [isAcceptedOutcome] using hfa
        unfold httpLoop
        rw [hatt]
        simp only [hst0, Bool.false_eq_true, if_false, if_neg hne,
          hihs (some (.http st0 url)), hidx]
        simp
      | err m =>
        unfold httpLoop
        rw [hatt]
        simp only [if_neg hne, hihs (some (.net m)), hidx]
        simp

/-- The backoff schedule `b^1, b^2, …` is strictly increasing for `b > 1`. -/
theorem backoff_growth (b : ℚ) (hb : 1 < b) (n : Nat) :
    List.Chain' (· < ·) ((List.range n).map (fun i => b ^ (i + 1))) := by
  rw [List.chain'_map]
  cases n with
  | zero => simp
  | succ m =>
    rw [List.chain'_range_succ]
    intro i _
    exact pow_lt_pow_right₀ hb (by omega)

/-- C7: `http_get` returns the first response whose status is in
`{200, 403, 503}` (its body included, whatever the status), after one
backoff sleep per preceding failed attempt; a failure is any network
error or other status, retried while attempts remain; when all
`retries + 1` attempts fail it raises the last attempt's error instead of
returning, having slept `retries` times; and the backoff sleeps grow
strictly. -/
theorem http_get_spec (att : Nat → NetOutcome) (url : String) (retries : Nat)
    (b : ℚ) (hb : 1 < b) :
    (∀ j st body, j ≤ retries →
      (∀ k, k < j → isAcceptedOutcome (att k) = false) →
      att j = .resp st body → acceptedStatus st = true →
      http_get att url retries b =
        (.ok (st, body), (List.range j).map (fun i => b ^ (i + 1)))) ∧
    ((∀ k, k ≤ retries → isAcceptedOutcome (att k) = false) →
      http_get att url retries b =
        (.error (pyErrOf (att retries) url),
          (List.range retries).map (fun i => b ^ (i + 1)))) ∧
    List.Chain' (· < ·) ((List.range retries).map (fun i => b ^ (i + 1))) := by
  refine ⟨?_, ?_, backoff_growth b hb retries⟩
  · intro j st body hj hfail hr hacc
    unfold http_get
    rw [List.range_eq_range']
    rw [httpLoop_success att url b j (retries + 1) 0 none (by omega)
      (fun k hk => by simpa using hfail k hk) st body (by simpa using hr) hacc]
    rw [List.range_eq_range']
  · intro hfail
    unfold http_get
    rw [List.range_eq_range']
    rw [httpLoop_fail att url b (retries + 1) 0 none (by omega)
      (fun k hk => by simpa using hfail k (by omega))]
    simp [List.range_eq_range']

/-- Witness for C7: an oracle whose every attempt times out, with the
default configuration `retries = 2`, `backoff = 1.5`: the last error is
raised after sleeps `1.5` and `2.25`. -/
theorem http_get_spec_witness :
    http_get attW "http://x" 2 (3 / 2) =
      (.error (.net "timeout"), [3 / 2, 9 / 4]) := by
  rw [(http_get_spec attW "http://x" 2 (3 / 2) (by norm_num)).2.1
    (fun k _ => rfl)]
  norm_num [pyErrOf, attW, List.range_succ, List.range_zero]

/-- The promo scanner finds nothing exactly when no keyword matches at
any position of the text. -/
theorem promoScan_none_iff : ∀ l : List Char,
    promoScan l = none ↔ ∀ t : List Char, t.IsSuffix l → promoHere t = none := by
  intro l
  induction l with
  | nil =>
    constructor
    · intro _ t ht
      rw [List.suffix_nil.mp ht]
      rfl
    · intro _; rfl
  | cons c rest ih =>
    constructor
    · intro h t ht
      rcases List.suffix_cons_iff.mp ht with h1 | h2
      · subst h1
        unfold promoScan at h
        cases hp : promoHere (c :: rest) with
        | some w => rw [hp] at h; simp at h
        | none => rfl
      · unfold promoScan at h
        cases hp : promoHere (c :: rest) with
        | some w => rw [hp] at h; simp at h
        | none =>
          rw [hp] at h
          exact (ih.mp h) t h2
    · intro hall
      unfold promoScan
      rw [hall (c :: rest) (List.suffix_refl _)]
      exact ih.mpr (fun t ht => hall t (ht.trans (List.suffix_cons c rest)))

/-- C10 counterexample: for the page text `"tặng kèm quà"` the code's
promo is the bare keyword `"tặng"`, not the keyword together with its
trailing context (`"tặng kèm quà"` here) — `re.findall` with one capture
group returns only the group. -/
theorem extract_promo_no_context :
    extract_promo "tặng kèm quà" = some "tặng" ∧
    (some "tặng" : Option String) ≠ some "tặng kèm quà" :=
  ⟨by decide, by decide⟩

/-- C10 (amended): the promo field is the first (leftmost, first
alternative) keyword occurrence itself, in the casing it has in the text
and stripped — with no trailing context — and it is `none` exactly when
no keyword of the vocabulary occurs case-insensitively in the text. -/
theorem extract_promo_keyword_only :
    (∀ text : String, extract_promo text = none ↔
      ∀ t : List Char, t.IsSuffix text.toList → promoHere t = none) ∧
    extract_promo "tặng kèm quà" = some "tặng" ∧
    extract_promo "Khuyến mãi: TẶNG kèm" = some "TẶNG" ∧
    extract_promo "giảm giá, tặng quà" = some "giảm" ∧
    extract_promo "giá tốt" = none := by
  refine ⟨?_, by decide, by decide, by decide, by decide⟩
  intro text
  unfold extract_promo
  rw [Option.map_eq_none']
  exact promoScan_none_iff text.toList

/-- Witness for C10's amended statement: no keyword matches at the start
of `"giá tốt"`, by the theorem's characterisation. -/
theorem extract_promo_keyword_only_witness :
    promoHere "giá tốt".toList = none :=
  (extract_promo_keyword_only.1 "giá tốt").mp
    extract_promo_keyword_only.2.2.2.2 "giá tốt".toList (List.suffix_refl _)
